import Mathlib

/-!
# Verification of the MIMPI message-passing runtime (src/mimpi.c)

Shallow embedding of the core data structures and algorithms of the MIMPI
library: the matching predicates, the per-peer Outbox and Inbox (with the
consumer's `Inbox_Retrieve` walk), the fixed-size packet framer, the
point-to-point send/receive paths, the collective-tree neighbour computation,
the status-folding function and the byte-wise reduction operators.

Machine integers are modelled as `Nat` (for `size_t` values, which are
non-negative) and `Int` (for C `int` values such as tags and ranks); byte
buffers are `List Nat` whose elements are byte values.  Places where the C
code converts between `int` and `size_t` are modelled by explicit conversion
functions (`c_int_of_size`, `c_size_of_int`).
-/

namespace MIMPI

/-! ## Constants (src/mimpi.c lines 19-27 and the wire format) -/

def MIMPI_PACKET_SIZE : Nat := 512
/-- `sizeof(header_t)`: a `size_t` (8 bytes), an `int` (4 bytes), 4 bytes padding. -/
def HEADER_SIZE : Nat := 16
/-- `MIMPI_PREFIX_SIZE = MIMPI_PACKET_SIZE - sizeof(header_t)`. -/
def MIMPI_PREFIX_SIZE : Nat := 496

def MIMPI_GROUP_TAG : Int := -1
def MIMPI_CLOSE_TAG : Int := -2
def MIMPI_REQUEST_TAG : Int := -3

/-- Modelled from the spec: `MIMPI_ANY_TAG` is declared in `mimpi.h`, which is
not part of the sources.  Spec §3 states "tag `0` means 'match any' (see §4.3).
The sentinel `ANY_TAG` internally denotes the same 'wildcard' semantics", so
the sentinel is the value `0`. -/
def MIMPI_ANY_TAG : Int := 0

/-! ## Return codes (mimpi.h, as listed in spec §6) -/

inductive MIMPI_Retcode where
  | MIMPI_SUCCESS
  | MIMPI_ERROR_ATTEMPTED_SELF_OP
  | MIMPI_ERROR_NO_SUCH_RANK
  | MIMPI_ERROR_REMOTE_FINISHED
  | MIMPI_ERROR_DEADLOCK_DETECTED
deriving DecidableEq, Repr

open MIMPI_Retcode

/-! ## Data model (src/mimpi.c lines 31-73) -/

inductive Inbox_Message_Type where
  | INBOX_MESSAGE
  | INBOX_REQUEST
  | INBOX_CLOSE
  | INBOX_GUARD
  | INBOX_DEADLOCK
deriving DecidableEq, Repr

open Inbox_Message_Type

/-- `struct Inbox_Message` (the `next` pointer and semaphore are represented by
the node's position in the inbox list). -/
structure Inbox_Message where
  type : Inbox_Message_Type
  tag : Int
  size : Nat
  data : List Nat
deriving DecidableEq, Repr

/-- `struct Outbox_Message` (the `next` pointer is the list structure). -/
structure Outbox_Message where
  tag : Int
  size : Nat
deriving DecidableEq, Repr

/-! ## Matching predicates (src/mimpi.c lines 84-97 and 258-270) -/

/-- `_MIMPI_Match` (src/mimpi.c lines 84-97). -/
def _MIMPI_Match (expected_size : Nat) (expected_tag : Int)
    (size : Nat) (tag : Int) : Bool :=
  if expected_size ≠ size then false
  else if expected_tag = 0 ∨ tag = 0 then true
  else expected_tag = tag

/-- `_Inbox_Match` (src/mimpi.c lines 258-270). -/
def _Inbox_Match (message : Inbox_Message) (tag : Int) (size : Nat) : Bool :=
  if message.size ≠ size then false
  else if message.tag = MIMPI_ANY_TAG ∨ tag = MIMPI_ANY_TAG then true
  else message.tag = tag

/-- C1/C3 helper: the propositional characterisation of `_MIMPI_Match`. -/
theorem _MIMPI_Match_iff (s₁ : Nat) (t₁ : Int) (s₂ : Nat) (t₂ : Int) :
    _MIMPI_Match s₁ t₁ s₂ t₂ = true ↔
      s₁ = s₂ ∧ (t₁ = 0 ∨ t₂ = 0 ∨ t₁ = t₂) := by
  unfold _MIMPI_Match
  by_cases hs : s₁ = s₂ <;> by_cases h1 : t₁ = 0 <;> by_cases h2 : t₂ = 0 <;>
    simp [hs, h1, h2]

/-- C3 helper: the propositional characterisation of `_Inbox_Match`. -/
theorem _Inbox_Match_iff (m : Inbox_Message) (tag : Int) (size : Nat) :
    _Inbox_Match m tag size = true ↔
      m.size = size ∧ (m.tag = MIMPI_ANY_TAG ∨ tag = MIMPI_ANY_TAG ∨ m.tag = tag) := by
  unfold _Inbox_Match
  by_cases hs : m.size = size <;> by_cases h1 : m.tag = MIMPI_ANY_TAG <;>
    by_cases h2 : tag = MIMPI_ANY_TAG <;> simp [hs, h1, h2]

/-! ## C integer conversions

`Inbox_Retrieve` passes a `size_t` where `Outbox_Pop` expects an `int` and an
`int` where it expects a `size_t`; the implicit C conversions are modelled
explicitly (64-bit `size_t`, 32-bit `int`, two's complement). -/

/-- Conversion of a `size_t` value to a C `int` (truncate to 32 bits, then
reinterpret as two's complement). -/
def c_int_of_size (n : Nat) : Int :=
  let m := n % 4294967296
  if m < 2147483648 then (m : Int) else (m : Int) - 4294967296

/-- Conversion of a C `int` value to a `size_t` (reduce modulo 2^64). -/
def c_size_of_int (t : Int) : Nat := (t % 18446744073709551616).toNat

/-! ## Outbox (src/mimpi.c lines 196-254)

The stack of `Outbox_Message` nodes is a list, `top` first. -/

/-- `Outbox_Push` (src/mimpi.c lines 216-229): prepend a node. -/
def Outbox_Push (outbox : List Outbox_Message) (tag : Int) (size : Nat) :
    List Outbox_Message :=
  ⟨tag, size⟩ :: outbox

/-- `Outbox_Pop` (src/mimpi.c lines 231-254): linear search from the top;
the first node whose `(size, tag)` satisfies
`_MIMPI_Match size tag node.size node.tag` is removed.  Returns the C
function's boolean result together with the outbox left behind. -/
def Outbox_Pop (outbox : List Outbox_Message) (tag : Int) (size : Nat) :
    Bool × List Outbox_Message :=
  match outbox with
  | [] => (false, [])
  | message :: rest =>
    if _MIMPI_Match size tag message.size message.tag then (true, rest)
    else
      let r := Outbox_Pop rest tag size
      (r.1, message :: r.2)

/-! ## Inbox consumer walk (src/mimpi.c lines 370-424)

The queue between the `front` guard and the `back` tail sentinel is a list of
`Inbox_Message` nodes.  `Inbox_Retrieve` walks it from the front; reaching the
tail sentinel means the consumer blocks on the next node's semaphore, which in
this finite model is the `blocked` outcome.  The walk also records, for claim
C9, the positions (indices into the list it was given) of the nodes it
inspected, in the order it inspected them. -/

inductive RetrieveOutcome where
  | success (data : List Nat)
  | error (code : MIMPI_Retcode)
  | blocked
deriving DecidableEq, Repr

structure RetrieveResult where
  outcome : RetrieveOutcome
  inbox : List Inbox_Message
  outbox : List Outbox_Message
  visited : List Nat
deriving DecidableEq, Repr

/-- `Inbox_Retrieve` (src/mimpi.c lines 370-424).  `detection` is the global
`MIMPI_deadlock_detection` flag and `outbox` is `MIMPI_outboxes[inbox->rank]`,
the caller's own outbox for the peer this inbox belongs to.

Note the `REQUEST` branch: the C code calls `Outbox_Pop(outbox, size, tag)`
against the prototype `Outbox_Pop(outbox, int tag, size_t size)`, so the
request's `size` is converted to `int` and passed as the `tag` argument and
the request's `tag` is converted to `size_t` and passed as the `size`
argument. -/
def Inbox_Retrieve (detection : Bool) (outbox : List Outbox_Message)
    (tag : Int) (size : Nat) :
    List Inbox_Message → RetrieveResult
  | [] => ⟨.blocked, [], outbox, []⟩
  | message :: rest =>
    if message.type = INBOX_CLOSE then
      ⟨.error MIMPI_ERROR_REMOTE_FINISHED, message :: rest, outbox, [0]⟩
    else if message.type = INBOX_REQUEST then
      if detection then
        let popped := Outbox_Pop outbox (c_int_of_size message.size)
          (c_size_of_int message.tag)
        if popped.1 then
          let r := Inbox_Retrieve detection popped.2 tag size rest
          ⟨r.outcome, r.inbox, r.outbox, 0 :: r.visited.map (· + 1)⟩
        else
          ⟨.error MIMPI_ERROR_DEADLOCK_DETECTED, rest, popped.2, [0]⟩
      else
        let r := Inbox_Retrieve detection outbox tag size rest
        ⟨r.outcome, message :: r.inbox, r.outbox, 0 :: r.visited.map (· + 1)⟩
    else if message.type = INBOX_DEADLOCK then
      if detection then
        let r := Inbox_Retrieve detection outbox tag size rest
        ⟨r.outcome, r.inbox, r.outbox, 0 :: r.visited.map (· + 1)⟩
      else
        let r := Inbox_Retrieve detection outbox tag size rest
        ⟨r.outcome, message :: r.inbox, r.outbox, 0 :: r.visited.map (· + 1)⟩
    else if message.type = INBOX_MESSAGE ∧ _Inbox_Match message tag size then
      ⟨.success (message.data.take size), rest, outbox, [0]⟩
    else
      let r := Inbox_Retrieve detection outbox tag size rest
      ⟨r.outcome, message :: r.inbox, r.outbox, 0 :: r.visited.map (· + 1)⟩

/-- `_Inbox_Save` (src/mimpi.c lines 287-304): the producer fills the old tail
sentinel and appends a fresh one, so the queue between `front` and `back`
grows by one node at the back. -/
def _Inbox_Save (inbox : List Inbox_Message) (type : Inbox_Message_Type)
    (tag : Int) (size : Nat) (data : List Nat) : List Inbox_Message :=
  inbox ++ [⟨type, tag, size, data⟩]

/-- `Inbox_Save_Message` (src/mimpi.c lines 347-354). -/
def Inbox_Save_Message (inbox : List Inbox_Message) (tag : Int) (size : Nat)
    (data : List Nat) : List Inbox_Message :=
  _Inbox_Save inbox INBOX_MESSAGE tag size data

/-- `Inbox_Save_Request` (src/mimpi.c lines 356-362). -/
def Inbox_Save_Request (inbox : List Inbox_Message) (tag : Int) (size : Nat) :
    List Inbox_Message :=
  _Inbox_Save inbox INBOX_REQUEST tag size []

/-- `Inbox_Close` (src/mimpi.c lines 364-368). -/
def Inbox_Close (inbox : List Inbox_Message) : List Inbox_Message :=
  _Inbox_Save inbox INBOX_CLOSE 0 0 []

/-- The inbox entry produced when the receiver saves the message of a send
`(tag, data)`: `Inbox_Save_Message` with the payload's size. -/
def mkMessage (p : Int × List Nat) : Inbox_Message :=
  ⟨INBOX_MESSAGE, p.1, p.2.length, p.2⟩

/-- A sequence of consumer retrieves: each `(tag, count)` in `recvs` is one
`Inbox_Retrieve`; the retrieved payloads are collected in call order, and the
inbox and outbox are threaded through.  `none` if some retrieve does not
return `MIMPI_SUCCESS`. -/
def Retrieve_seq (detection : Bool) :
    List (Int × Nat) → List Inbox_Message → List Outbox_Message →
      Option (List (List Nat) × List Inbox_Message)
  | [], inbox, _ => some ([], inbox)
  | (tag, count) :: recvs, inbox, outbox =>
    let r := Inbox_Retrieve detection outbox tag count inbox
    match r.outcome with
    | .success d =>
      (Retrieve_seq detection recvs r.inbox r.outbox).map fun x => (d :: x.1, x.2)
    | _ => none

/-- C1 helper: a retrieve whose first entry is a matching `MESSAGE` consumes
exactly that entry. -/
theorem Inbox_Retrieve_cons_match (detection : Bool)
    (outbox : List Outbox_Message) (tag : Int) (size : Nat)
    (m : Inbox_Message) (rest : List Inbox_Message)
    (hm : m.type = INBOX_MESSAGE) (hmatch : _Inbox_Match m tag size = true) :
    Inbox_Retrieve detection outbox tag size (m :: rest) =
      ⟨.success (m.data.take size), rest, outbox, [0]⟩ := by
  simp [Inbox_Retrieve, hm, hmatch]

/-- C1 helper: a successful retrieve consumes the first `MESSAGE` entry that
matches; every entry before it is either not a `MESSAGE` or does not match. -/
theorem Inbox_Retrieve_success_first_match :
    ∀ (inbox : List Inbox_Message) (detection : Bool)
      (outbox : List Outbox_Message)
      (tag : Int) (size : Nat) (d : List Nat),
      (Inbox_Retrieve detection outbox tag size inbox).outcome = .success d →
      ∃ l₁ m l₂, inbox = l₁ ++ m :: l₂ ∧
        m.type = INBOX_MESSAGE ∧ _Inbox_Match m tag size = true ∧
        d = m.data.take size ∧
        ∀ e ∈ l₁, ¬(e.type = INBOX_MESSAGE ∧ _Inbox_Match e tag size = true)
  | [], detection, outbox, tag, size, d => by
    intro h
    simp [Inbox_Retrieve] at h
  | message :: rest, detection, outbox, tag, size, d => by
    intro h
    by_cases hclose : message.type = INBOX_CLOSE
    · simp [Inbox_Retrieve, hclose] at h
    · by_cases hreq : message.type = INBOX_REQUEST
      · by_cases hdet : detection
        · by_cases hpop : (Outbox_Pop outbox (c_int_of_size message.size)
              (c_size_of_int message.tag)).1
          · simp [Inbox_Retrieve, hclose, hreq, hdet, hpop] at h
            obtain ⟨l₁, m, l₂, hsplit, hm, hmt, hd, hfirst⟩ :=
              Inbox_Retrieve_success_first_match rest true _ tag size d h
            exact ⟨message :: l₁, m, l₂, by simp [hsplit], hm, hmt, hd, by
              intro e he
              rcases List.mem_cons.mp he with rfl | he
              · simp [hreq]
              · exact hfirst e he⟩
          · simp [Inbox_Retrieve, hclose, hreq, hdet, hpop] at h
        · simp [Inbox_Retrieve, hclose, hreq, hdet] at h
          obtain ⟨l₁, m, l₂, hsplit, hm, hmt, hd, hfirst⟩ :=
            Inbox_Retrieve_success_first_match rest false _ tag size d h
          exact ⟨message :: l₁, m, l₂, by simp [hsplit], hm, hmt, hd, by
            intro e he
            rcases List.mem_cons.mp he with rfl | he
            · simp [hreq]
            · exact hfirst e he⟩
      · by_cases hdead : message.type = INBOX_DEADLOCK
        · have h' : (Inbox_Retrieve detection outbox tag size rest).outcome
              = .success d := by
            by_cases hdet : detection <;>
              simpa [Inbox_Retrieve, hclose, hreq, hdead, hdet] using h
          obtain ⟨l₁, m, l₂, hsplit, hm, hmt, hd, hfirst⟩ :=
            Inbox_Retrieve_success_first_match rest detection _ tag size d h'
          exact ⟨message :: l₁, m, l₂, by simp [hsplit], hm, hmt, hd, by
            intro e he
            rcases List.mem_cons.mp he with rfl | he
            · simp [hdead]
            · exact hfirst e he⟩
        · by_cases hmsg : message.type = INBOX_MESSAGE ∧
              _Inbox_Match message tag size = true
          · refine ⟨[], message, rest, by simp, hmsg.1, hmsg.2, ?_, by simp⟩
            simp [Inbox_Retrieve, hclose, hreq, hdead, hmsg.1, hmsg.2] at h
            exact h.symm
          · simp [Inbox_Retrieve, hclose, hreq, hdead, hmsg] at h
            obtain ⟨l₁, m, l₂, hsplit, hm, hmt, hd, hfirst⟩ :=
              Inbox_Retrieve_success_first_match rest detection _ tag size d h
            exact ⟨message :: l₁, m, l₂, by simp [hsplit], hm, hmt, hd, by
              intro e he
              rcases List.mem_cons.mp he with rfl | he
              · exact hmsg
              · exact hfirst e he⟩

/-- C1 helper: retrieving, in order, a sequence whose `(tag, count)` pairs
match the inbox entries in order yields exactly the payloads in order. -/
theorem Retrieve_seq_in_order :
    ∀ (sends : List (Int × List Nat)) (recvs : List (Int × Nat))
      (outbox : List Outbox_Message),
      sends.length = recvs.length →
      (∀ p ∈ sends.zip recvs, _Inbox_Match (mkMessage p.1) p.2.1 p.2.2 = true) →
      Retrieve_seq false recvs (sends.map mkMessage) outbox =
        some (sends.map Prod.snd, [])
  | [], [], outbox, _, _ => by simp [Retrieve_seq]
  | [], r :: recvs, outbox, hlen, _ => by simp at hlen
  | s :: sends, [], outbox, hlen, _ => by simp at hlen
  | (tag, data) :: sends, (rtag, rcount) :: recvs, outbox, hlen, hmatch => by
    have hhead : _Inbox_Match (mkMessage (tag, data)) rtag rcount = true :=
      hmatch ((tag, data), (rtag, rcount)) (by simp)
    have hsize : data.length = rcount := by
      have := (_Inbox_Match_iff (mkMessage (tag, data)) rtag rcount).mp hhead
      simpa [mkMessage] using this.1
    have hcons := Inbox_Retrieve_cons_match false outbox rtag rcount
      (mkMessage (tag, data)) (sends.map mkMessage) rfl hhead
    have htake : (mkMessage (tag, data)).data.take rcount = data := by
      simp [mkMessage, ← hsize]
    have ih := Retrieve_seq_in_order sends recvs outbox
      (by simpa using hlen) (by intro p hp; exact hmatch p (by simp [hp]))
    simp [Retrieve_seq, hcons, htake, ih]

/-- C9 helper: prepending position `0` to shifted positions of a sub-walk. -/
theorem visited_cons_range (v : List Nat) (hv : v = List.range v.length) :
    (0 : Nat) :: v.map (· + 1) = List.range (0 :: v.map (· + 1)).length := by
  conv_lhs => rw [hv]
  simp [List.range_succ_eq_map, Nat.succ_eq_add_one]

/-- C9 helper: within one call, the consumer walk inspects exactly the
positions `0, 1, 2, …` of the list it was handed, in that order — it moves
strictly forward and never revisits a node. -/
theorem Inbox_Retrieve_visited_range :
    ∀ (inbox : List Inbox_Message) (detection : Bool)
      (outbox : List Outbox_Message) (tag : Int) (size : Nat),
      (Inbox_Retrieve detection outbox tag size inbox).visited =
        List.range (Inbox_Retrieve detection outbox tag size inbox).visited.length
  | [], detection, outbox, tag, size => by simp [Inbox_Retrieve]
  | message :: rest, detection, outbox, tag, size => by
    by_cases hclose : message.type = INBOX_CLOSE
    · simp [Inbox_Retrieve, hclose, List.range_succ]
    · by_cases hreq : message.type = INBOX_REQUEST
      · by_cases hdet : detection
        · by_cases hpop : (Outbox_Pop outbox (c_int_of_size message.size)
              (c_size_of_int message.tag)).1
          · have ih := Inbox_Retrieve_visited_range rest true
              (Outbox_Pop outbox (c_int_of_size message.size)
                (c_size_of_int message.tag)).2 tag size
            simpa [Inbox_Retrieve, hclose, hreq, hdet, hpop] using
              visited_cons_range _ ih
          · simp [Inbox_Retrieve, hclose, hreq, hdet, hpop, List.range_succ]
        · have ih := Inbox_Retrieve_visited_range rest false outbox tag size
          simpa [Inbox_Retrieve, hclose, hreq, hdet] using
            visited_cons_range _ ih
      · by_cases hdead : message.type = INBOX_DEADLOCK
        · have ih := Inbox_Retrieve_visited_range rest detection outbox tag size
          by_cases hdet : detection <;>
            simpa [Inbox_Retrieve, hclose, hreq, hdead, hdet] using
              visited_cons_range _ ih
        · by_cases hmsg : message.type = INBOX_MESSAGE ∧
              _Inbox_Match message tag size = true
          · simp [Inbox_Retrieve, hclose, hreq, hdead, hmsg.1, hmsg.2,
              List.range_succ]
          · have ih := Inbox_Retrieve_visited_range rest detection outbox tag size
            simpa [Inbox_Retrieve, hclose, hreq, hdead, hmsg] using
              visited_cons_range _ ih

/-! ## Status folding (src/mimpi.c lines 167-192) -/

/-- `_MIMPI_Update_Retcode` (src/mimpi.c lines 167-192). -/
def _MIMPI_Update_Retcode (retcode other : MIMPI_Retcode) : MIMPI_Retcode :=
  if retcode = MIMPI_ERROR_NO_SUCH_RANK ∨ other = MIMPI_ERROR_NO_SUCH_RANK then
    MIMPI_ERROR_NO_SUCH_RANK
  else if retcode = MIMPI_ERROR_ATTEMPTED_SELF_OP ∨
      other = MIMPI_ERROR_ATTEMPTED_SELF_OP then
    MIMPI_ERROR_ATTEMPTED_SELF_OP
  else if retcode = MIMPI_ERROR_REMOTE_FINISHED ∨
      other = MIMPI_ERROR_REMOTE_FINISHED then
    MIMPI_ERROR_REMOTE_FINISHED
  else if retcode = MIMPI_ERROR_DEADLOCK_DETECTED ∨
      other = MIMPI_ERROR_DEADLOCK_DETECTED then
    MIMPI_ERROR_DEADLOCK_DETECTED
  else
    MIMPI_SUCCESS

/-- The claimed precedence order, as a rank: earlier (dominant) codes get
smaller numbers.  `NO_SUCH_RANK > ATTEMPTED_SELF_OP > REMOTE_FINISHED >
DEADLOCK_DETECTED > SUCCESS`. -/
def retcodePrecedence : MIMPI_Retcode → Nat
  | MIMPI_ERROR_NO_SUCH_RANK => 0
  | MIMPI_ERROR_ATTEMPTED_SELF_OP => 1
  | MIMPI_ERROR_REMOTE_FINISHED => 2
  | MIMPI_ERROR_DEADLOCK_DETECTED => 3
  | MIMPI_SUCCESS => 4

/-- C5 helper: `_MIMPI_Update_Retcode` yields `SUCCESS` only from two
`SUCCESS` arguments. -/
theorem _MIMPI_Update_Retcode_eq_success (a b : MIMPI_Retcode) :
    _MIMPI_Update_Retcode a b = MIMPI_SUCCESS ↔
      a = MIMPI_SUCCESS ∧ b = MIMPI_SUCCESS := by
  cases a <;> cases b <;> simp [_MIMPI_Update_Retcode]

/-- C5 helper: folding `_MIMPI_Update_Retcode` over a list yields `SUCCESS`
iff the accumulator and every element are `SUCCESS`. -/
theorem foldl_Update_Retcode_eq_success :
    ∀ (l : List MIMPI_Retcode) (acc : MIMPI_Retcode),
      l.foldl _MIMPI_Update_Retcode acc = MIMPI_SUCCESS ↔
        acc = MIMPI_SUCCESS ∧ ∀ x ∈ l, x = MIMPI_SUCCESS
  | [], acc => by simp
  | a :: l, acc => by
    rw [List.foldl_cons, foldl_Update_Retcode_eq_success l,
      _MIMPI_Update_Retcode_eq_success]
    constructor
    · rintro ⟨⟨h1, h2⟩, h3⟩
      exact ⟨h1, by simpa [h2] using h3⟩
    · rintro ⟨h1, h2⟩
      exact ⟨⟨h1, h2 a (by simp)⟩, fun x hx => h2 x (by simp [hx])⟩

/-! ## Collective tree neighbours (src/mimpi.c lines 143-165)

Ranks and tree indices are C `int`s, modelled as `Int`.  For valid arguments
(`0 ≤ rank < size`, `0 ≤ root < size`) every `%` and `/` below is applied to
non-negative operands with a positive divisor, where C truncated division and
remainder agree with Lean's `Int` `/` and `%`. -/

def MIMPI_CHILDREN : Nat := 2

/-- `_MIMPI_Get_Neighbours` (src/mimpi.c lines 143-165): returns the pair of
the `*parent` output (-1 when the process is the tree root) and the
`children` array (-1 entries for absent children). -/
def _MIMPI_Get_Neighbours (rank root size : Int) : Int × List Int :=
  let index := (size + rank - root) % size + 1
  ((if index = 1 then -1 else (index / 2 + root - 1) % size),
   (List.range MIMPI_CHILDREN).map fun i =>
     let child := index * 2 + (i : Int)
     if child > size then -1 else (child + root - 1) % size)

/-! ## Wire format (src/mimpi.c lines 31-39, 466-501, 553-580)

The channel is a byte stream, modelled as a `List Nat` of byte values.
`header_t` is laid out as a little-endian 8-byte `size`, a little-endian
4-byte two's-complement `tag`, and 4 bytes of padding (zero, because every
`prefix_t` is `memset` to 0 before use). -/

/-- Little-endian encoding of `n` into `k` bytes. -/
def natToBytesLE : Nat → Nat → List Nat
  | 0, _ => []
  | k + 1, n => n % 256 :: natToBytesLE k (n / 256)

/-- Little-endian decoding of a byte list. -/
def bytesToNatLE : List Nat → Nat
  | [] => 0
  | b :: bs => b + 256 * bytesToNatLE bs

/-- Encoding of a C `int` into 4 bytes (two's complement). -/
def intToBytes4 (t : Int) : List Nat :=
  natToBytesLE 4 (t % 4294967296).toNat

/-- Decoding of 4 bytes into a C `int` (two's complement). -/
def bytes4ToInt (bs : List Nat) : Int :=
  let n := bytesToNatLE bs
  if n < 2147483648 then (n : Int) else (n : Int) - 4294967296

theorem length_natToBytesLE : ∀ (k n : Nat), (natToBytesLE k n).length = k
  | 0, _ => rfl
  | k + 1, n => by simp [natToBytesLE, length_natToBytesLE k]

theorem mod_mul_256_decomp (n M : Nat) (hM : 0 < M) :
    n % (256 * M) = n % 256 + 256 * (n / 256 % M) := by
  obtain ⟨q, r, hr, rfl⟩ : ∃ q r, r < 256 ∧ n = 256 * q + r :=
    ⟨n / 256, n % 256, Nat.mod_lt _ (by norm_num),
      by rw [Nat.div_add_mod]⟩
  have hmod : (256 * q + r) % 256 = r := by
    rw [Nat.mul_add_mod, Nat.mod_eq_of_lt hr]
  have hdiv : (256 * q + r) / 256 = q := by
    rw [Nat.mul_add_div (by norm_num), Nat.div_eq_of_lt hr, Nat.add_zero]
  rw [hmod, hdiv]
  obtain ⟨s, u, hu, rfl⟩ : ∃ s u, u < M ∧ q = M * s + u :=
    ⟨q / M, q % M, Nat.mod_lt _ hM, by rw [Nat.div_add_mod]⟩
  have humod : (M * s + u) % M = u := by
    rw [Nat.mul_add_mod, Nat.mod_eq_of_lt hu]
  rw [humod]
  have hsplit : 256 * (M * s + u) + r = (256 * M) * s + (256 * u + r) := by
    ring
  rw [hsplit, Nat.mul_add_mod, Nat.mod_eq_of_lt (by omega)]
  ring

theorem bytesToNatLE_natToBytesLE : ∀ (k n : Nat),
    bytesToNatLE (natToBytesLE k n) = n % 256 ^ k
  | 0, n => by simp [natToBytesLE, bytesToNatLE, Nat.mod_one]
  | k + 1, n => by
    rw [natToBytesLE, bytesToNatLE, bytesToNatLE_natToBytesLE k,
      pow_succ, mul_comm (256 ^ k) 256, mod_mul_256_decomp n (256 ^ k)
        (Nat.pos_pow_of_pos k (by norm_num))]

theorem bytesToNatLE_natToBytesLE_of_lt (k n : Nat) (h : n < 256 ^ k) :
    bytesToNatLE (natToBytesLE k n) = n := by
  rw [bytesToNatLE_natToBytesLE, Nat.mod_eq_of_lt h]

theorem bytes4ToInt_intToBytes4 (t : Int)
    (h1 : -2147483648 ≤ t) (h2 : t < 2147483648) :
    bytes4ToInt (intToBytes4 t) = t := by
  unfold bytes4ToInt intToBytes4
  have hnn : 0 ≤ t % 4294967296 := Int.emod_nonneg t (by norm_num)
  have hlt : t % 4294967296 < 4294967296 := Int.emod_lt_of_pos t (by norm_num)
  have hcast : ((t % 4294967296).toNat : Int) = t % 4294967296 :=
    Int.toNat_of_nonneg hnn
  have hbound : (t % 4294967296).toNat < 256 ^ 4 := by omega
  rw [bytesToNatLE_natToBytesLE_of_lt 4 _ hbound]
  by_cases h : (t % 4294967296).toNat < 2147483648
  · rw [if_pos h]
    omega
  · rw [if_neg h]
    omega

/-- The serialised `header_t`: little-endian `size`, little-endian
two's-complement `tag`, 4 zero padding bytes (every `prefix_t` is zeroed by
`memset` before the fields are written). -/
def headerBytes (size : Nat) (tag : Int) : List Nat :=
  natToBytesLE 8 size ++ intToBytes4 tag ++ [0, 0, 0, 0]

/-- The bytes `_MIMPI_Send` writes to the channel for a payload `data` with
tag `tag` (src/mimpi.c lines 553-580 together with `_MIMPI_Send_Data`, lines
535-551): one `MIMPI_PACKET_SIZE`-byte packet — header, then the first
`min (data.length) MIMPI_PREFIX_SIZE` payload bytes, then zeroes — followed
by the remaining payload bytes as a raw tail. -/
def sendFrameBytes (data : List Nat) (tag : Int) : List Nat :=
  headerBytes data.length tag ++
    (data.take MIMPI_PREFIX_SIZE ++
      List.replicate (MIMPI_PREFIX_SIZE - min data.length MIMPI_PREFIX_SIZE) 0) ++
    data.drop MIMPI_PREFIX_SIZE

/-- `_Receiver_Receive` (src/mimpi.c lines 466-501): read one full packet
(`none` models the EOF/short-read path), decode `(size, tag)`, copy the
payload's packet part, and read the raw tail when the payload exceeds
`MIMPI_PREFIX_SIZE`.  Returns `((tag, size, data), remaining stream)`. -/
def _Receiver_Receive (stream : List Nat) :
    Option ((Int × Nat × List Nat) × List Nat) :=
  if stream.length < MIMPI_PACKET_SIZE then none
  else
    let packet := stream.take MIMPI_PACKET_SIZE
    let rest := stream.drop MIMPI_PACKET_SIZE
    let size := bytesToNatLE (packet.take 8)
    let tag := bytes4ToInt ((packet.drop 8).take 4)
    if size = 0 then some ((tag, size, []), rest)
    else
      let packet_count := min size MIMPI_PREFIX_SIZE
      let packet_part := (packet.drop HEADER_SIZE).take packet_count
      if size ≤ MIMPI_PREFIX_SIZE then some ((tag, size, packet_part), rest)
      else if rest.length < size - MIMPI_PREFIX_SIZE then none
      else some ((tag, size, packet_part ++ rest.take (size - MIMPI_PREFIX_SIZE)),
        rest.drop (size - MIMPI_PREFIX_SIZE))

theorem length_intToBytes4 (t : Int) : (intToBytes4 t).length = 4 := by
  simp [intToBytes4, length_natToBytesLE]

theorem length_headerBytes (size : Nat) (tag : Int) :
    (headerBytes size tag).length = HEADER_SIZE := by
  simp [headerBytes, length_natToBytesLE, length_intToBytes4, HEADER_SIZE]

/-- C7 helper: parsing a framed payload followed by anything reconstructs the
tag, the size and the payload bytes exactly, and consumes exactly the frame. -/
theorem Receiver_Receive_sendFrameBytes (data : List Nat) (tag : Int)
    (rest : List Nat) (h1 : -2147483648 ≤ tag) (h2 : tag < 2147483648)
    (hlen : data.length < 18446744073709551616) :
    _Receiver_Receive (sendFrameBytes data tag ++ rest) =
      some ((tag, data.length, data), rest) := by
  have hP : MIMPI_PREFIX_SIZE = 496 := rfl
  set region := data.take MIMPI_PREFIX_SIZE ++
    List.replicate (MIMPI_PREFIX_SIZE - min data.length MIMPI_PREFIX_SIZE) 0
    with hregion
  have hreglen : region.length = MIMPI_PREFIX_SIZE := by
    simp [hregion]
    omega
  set packet := headerBytes data.length tag ++ region with hpacket
  have hpacklen : packet.length = MIMPI_PACKET_SIZE := by
    simp [hpacket, length_headerBytes, hreglen]
    rfl
  have hstream : sendFrameBytes data tag ++ rest =
      packet ++ (data.drop MIMPI_PREFIX_SIZE ++ rest) := by
    simp [sendFrameBytes, hpacket, hregion, List.append_assoc]
  have htake : (sendFrameBytes data tag ++ rest).take MIMPI_PACKET_SIZE =
      packet := by
    rw [hstream]; exact List.take_left' hpacklen
  have hdrop : (sendFrameBytes data tag ++ rest).drop MIMPI_PACKET_SIZE =
      data.drop MIMPI_PREFIX_SIZE ++ rest := by
    rw [hstream]; exact List.drop_left' hpacklen
  have hlen512 : ¬((sendFrameBytes data tag ++ rest).length <
      MIMPI_PACKET_SIZE) := by
    rw [hstream]
    simp [hpacklen]
  have hpacket8 : packet = natToBytesLE 8 data.length ++
      (intToBytes4 tag ++ ([0, 0, 0, 0] ++ region)) := by
    simp [hpacket, headerBytes, List.append_assoc]
  have htake8 : packet.take 8 = natToBytesLE 8 data.length := by
    rw [hpacket8]; exact List.take_left' (length_natToBytesLE 8 _)
  have hdrop8 : packet.drop 8 = intToBytes4 tag ++ ([0, 0, 0, 0] ++ region) := by
    rw [hpacket8]; exact List.drop_left' (length_natToBytesLE 8 _)
  have htake4 : (packet.drop 8).take 4 = intToBytes4 tag := by
    rw [hdrop8]; exact List.take_left' (length_intToBytes4 tag)
  have hsize : bytesToNatLE (packet.take 8) = data.length := by
    rw [htake8]
    exact bytesToNatLE_natToBytesLE_of_lt 8 _ (by norm_num; exact hlen)
  have htag : bytes4ToInt ((packet.drop 8).take 4) = tag := by
    rw [htake4]; exact bytes4ToInt_intToBytes4 tag h1 h2
  have hdrop16 : packet.drop HEADER_SIZE = region := by
    rw [hpacket]; exact List.drop_left' (length_headerBytes _ _)
  rw [_Receiver_Receive, if_neg hlen512]
  simp only [htake, hdrop, hsize, htag, hdrop16]
  by_cases hL0 : data.length = 0
  · rw [if_pos hL0]
    have hnil : data = [] := List.length_eq_zero.mp hL0
    simp [hnil, hL0]
  · rw [if_neg hL0]
    by_cases hLP : data.length ≤ MIMPI_PREFIX_SIZE
    · rw [if_pos hLP]
      have hmin : min data.length MIMPI_PREFIX_SIZE = data.length :=
        min_eq_left hLP
      have hregion2 : region = data ++
          List.replicate (MIMPI_PREFIX_SIZE - min data.length MIMPI_PREFIX_SIZE)
            0 := by
        rw [hregion, List.take_of_length_le hLP]
      have hpart : region.take (min data.length MIMPI_PREFIX_SIZE) = data := by
        rw [hregion2, hmin]; exact List.take_left' rfl
      have hdropnil : data.drop MIMPI_PREFIX_SIZE = [] :=
        List.drop_eq_nil_of_le hLP
      simp [hpart, hdropnil]
    · rw [if_neg hLP]
      push_neg at hLP
      have hmin : min data.length MIMPI_PREFIX_SIZE = MIMPI_PREFIX_SIZE :=
        min_eq_right (le_of_lt hLP)
      have hregion3 : region = data.take MIMPI_PREFIX_SIZE := by
        rw [hregion, hmin]
        simp
      have hpart : region.take (min data.length MIMPI_PREFIX_SIZE) =
          data.take MIMPI_PREFIX_SIZE := by
        rw [hregion3, hmin]
        exact List.take_of_length_le (by simp [List.length_take])
      have hsuffixlen : (data.drop MIMPI_PREFIX_SIZE).length =
          data.length - MIMPI_PREFIX_SIZE := by simp
      have hcond : ¬((data.drop MIMPI_PREFIX_SIZE ++ rest).length <
          data.length - MIMPI_PREFIX_SIZE) := by
        simp [List.length_append, hsuffixlen]
      rw [if_neg hcond]
      have htail : (data.drop MIMPI_PREFIX_SIZE ++ rest).take
          (data.length - MIMPI_PREFIX_SIZE) = data.drop MIMPI_PREFIX_SIZE :=
        List.take_left' hsuffixlen
      have hrest : (data.drop MIMPI_PREFIX_SIZE ++ rest).drop
          (data.length - MIMPI_PREFIX_SIZE) = rest :=
        List.drop_left' hsuffixlen
      rw [hpart, htail, hrest, List.take_append_drop]

/-! ## Process-wide state and the point-to-point paths
(src/mimpi.c lines 553-613, 798-832)

`World` collects the per-peer state a single process sees: for every peer
rank, the outbound channel's byte stream (`wires`), the own outbox for that
peer (`outboxes`), and the inbox of arrivals from that peer (`inboxes`).
The channel in this model always accepts bytes, so the `chsend` failure path
(`REMOTE_FINISHED`) is unreachable; the claims below do not concern it. -/

structure World where
  wires : Int → List Nat
  outboxes : Int → List Outbox_Message
  inboxes : Int → List Inbox_Message

def emptyWorld : World := ⟨fun _ => [], fun _ => [], fun _ => []⟩

/-- `_MIMPI_Send` (src/mimpi.c lines 553-580): self/range guards, then frame
and write the packet (and tail) to the outbound channel of `destination`. -/
def _MIMPI_Send (rank size : Int) (data : List Nat)
    (destination tag : Int) (w : World) : MIMPI_Retcode × World :=
  if destination = rank then (MIMPI_ERROR_ATTEMPTED_SELF_OP, w)
  else if destination < 0 ∨ size ≤ destination then
    (MIMPI_ERROR_NO_SUCH_RANK, w)
  else
    (MIMPI_SUCCESS,
      { w with wires := (Function.update w.wires destination
          (w.wires destination ++ sendFrameBytes data tag)) })

/-- `MIMPI_Send` (src/mimpi.c lines 798-810): `_MIMPI_Send`, then — when
deadlock detection is enabled (`MIMPI_outboxes` non-NULL) and the send
succeeded — push `(tag, count)` onto the outbox for `destination`. -/
def MIMPI_Send (detection : Bool) (rank size : Int) (data : List Nat)
    (destination tag : Int) (w : World) : MIMPI_Retcode × World :=
  let r := _MIMPI_Send rank size data destination tag w
  if detection ∧ r.1 = MIMPI_SUCCESS then
    (r.1, { r.2 with outboxes := (Function.update r.2.outboxes destination
        (Outbox_Push (r.2.outboxes destination) tag data.length)) })
  else r

/-- `_MIMPI_Recv` (src/mimpi.c lines 582-589): straight to
`Inbox_Retrieve` on the inbox of `source`, with the own outbox for
`source`. -/
def _MIMPI_Recv (detection : Bool) (count : Nat) (source tag : Int)
    (w : World) : RetrieveOutcome × World :=
  let r := Inbox_Retrieve detection (w.outboxes source) tag count
    (w.inboxes source)
  (r.outcome,
    { w with inboxes := Function.update w.inboxes source r.inbox,
             outboxes := Function.update w.outboxes source r.outbox })

/-- The packet `_MIMPI_Deadlock_Request` writes: header
`{size = sizeof(header_t), tag = MIMPI_REQUEST_TAG}`, payload = the
serialised header `{count, tag}`, rest zero; no tail. -/
def requestFrameBytes (count : Nat) (tag : Int) : List Nat :=
  headerBytes HEADER_SIZE MIMPI_REQUEST_TAG ++
    (headerBytes count tag ++ List.replicate (MIMPI_PREFIX_SIZE - HEADER_SIZE) 0)

/-- `_MIMPI_Deadlock_Request` (src/mimpi.c lines 593-613). -/
def _MIMPI_Deadlock_Request (detection : Bool) (count : Nat)
    (source tag : Int) (w : World) : MIMPI_Retcode × World :=
  if detection then
    (MIMPI_SUCCESS,
      { w with wires := (Function.update w.wires source
          (w.wires source ++ requestFrameBytes count tag)) })
  else (MIMPI_SUCCESS, w)

/-- `MIMPI_Recv` (src/mimpi.c lines 812-832): self/range guards, the
deadlock-detection REQUEST announcement, then `_MIMPI_Recv`. -/
def MIMPI_Recv (detection : Bool) (rank size : Int) (count : Nat)
    (source tag : Int) (w : World) : RetrieveOutcome × World :=
  if source = rank then (.error MIMPI_ERROR_ATTEMPTED_SELF_OP, w)
  else if source < 0 ∨ size ≤ source then (.error MIMPI_ERROR_NO_SUCH_RANK, w)
  else
    let r := _MIMPI_Deadlock_Request detection count source tag w
    if r.1 ≠ MIMPI_SUCCESS then (.error r.1, r.2)
    else _MIMPI_Recv detection count source tag r.2

/-! ## Reduction operators (src/mimpi.c lines 116-141)

`_MIMPI_Reduce` acts on `uint8_t` buffers elementwise: `MAX`/`MIN` by
comparison, `SUM`/`PROD` with the `uint8_t` wrap-around, i.e. modulo 256. -/

inductive MIMPI_Op where
  | MIMPI_MAX
  | MIMPI_MIN
  | MIMPI_SUM
  | MIMPI_PROD
deriving DecidableEq, Repr

open MIMPI_Op

/-- One elementwise step of `_MIMPI_Reduce`: the update of `result[i]`
(first argument) by `other[i]` (second argument). -/
def opByte : MIMPI_Op → Nat → Nat → Nat
  | MIMPI_MAX, a, b => if b > a then b else a
  | MIMPI_MIN, a, b => if b < a then b else a
  | MIMPI_SUM, a, b => (a + b) % 256
  | MIMPI_PROD, a, b => (a * b) % 256

/-- `_MIMPI_Reduce` (src/mimpi.c lines 116-141): update the first `size`
entries of `result` elementwise with `other`; entries past `size` are left
as they are. -/
def _MIMPI_Reduce (result other : List Nat) (size : Nat) (op : MIMPI_Op) :
    List Nat :=
  List.zipWith (opByte op) (result.take size) (other.take size) ++
    result.drop size

theorem opByte_comm (op : MIMPI_Op) (a b : Nat) :
    opByte op a b = opByte op b a := by
  cases op <;> simp only [opByte] <;>
    first
      | (split_ifs <;> omega)
      | rw [Nat.add_comm]
      | rw [Nat.mul_comm]

theorem opByte_assoc (op : MIMPI_Op) (a b c : Nat) :
    opByte op (opByte op a b) c = opByte op a (opByte op b c) := by
  cases op <;> simp only [opByte]
  · split_ifs <;> omega
  · split_ifs <;> omega
  · rw [Nat.mod_add_mod, Nat.add_mod_mod, Nat.add_assoc]
  · rw [Nat.mod_mul_mod, Nat.mul_mod_mod, Nat.mul_assoc]

/-- The elementwise combination of two buffers. -/
def zipOp (op : MIMPI_Op) (a b : List Nat) : List Nat :=
  List.zipWith (opByte op) a b

theorem zipOp_comm (op : MIMPI_Op) (a b : List Nat) :
    zipOp op a b = zipOp op b a :=
  List.zipWith_comm_of_comm _ (opByte_comm op) a b

theorem zipOp_assoc (op : MIMPI_Op) :
    ∀ (a b c : List Nat), zipOp op (zipOp op a b) c = zipOp op a (zipOp op b c)
  | [], _, _ => rfl
  | _ :: _, [], _ => rfl
  | _ :: _, _ :: _, [] => rfl
  | x :: a, y :: b, z :: c => by
    simp only [zipOp, List.zipWith] at *
    rw [opByte_assoc]
    exact congrArg _ (zipOp_assoc op a b c)

theorem zipOp_length (op : MIMPI_Op) (a b : List Nat) :
    (zipOp op a b).length = min a.length b.length :=
  List.length_zipWith _ a b

/-- `_MIMPI_Reduce` on two full buffers of length `size` is the elementwise
combination. -/
theorem _MIMPI_Reduce_eq_zipOp (a b : List Nat) (size : Nat) (op : MIMPI_Op)
    (ha : a.length = size) (hb : b.length = size) :
    _MIMPI_Reduce a b size op = zipOp op a b := by
  subst ha
  rw [_MIMPI_Reduce, List.take_length a, List.take_of_length_le (le_of_eq hb),
    List.drop_length a, List.append_nil]
  rfl

/-- Folding buffers into a seed, in order. -/
def foldBuffers (op : MIMPI_Op) (b : List Nat) (bs : List (List Nat)) :
    List Nat :=
  bs.foldl (fun acc x => zipOp op acc x) b

/-- The elementwise fold of a non-empty list of buffers (the claim's
"elementwise fold of all ranks' send buffers"). -/
def foldBuffers1 (op : MIMPI_Op) : List (List Nat) → List Nat
  | [] => []
  | b :: bs => foldBuffers op b bs

/-- Pulling a factor out of the seed of a buffer fold. -/
theorem foldl_zipOp_seed (op : MIMPI_Op) :
    ∀ (l : List (List Nat)) (x y : List Nat),
      List.foldl (fun acc z => zipOp op acc z) (zipOp op x y) l =
        zipOp op x (List.foldl (fun acc z => zipOp op acc z) y l)
  | [], x, y => rfl
  | z :: l, x, y => by
    simp only [List.foldl_cons]
    rw [zipOp_assoc op x y z]
    exact foldl_zipOp_seed op l x (zipOp op y z)

/-- Fold of a two-headed buffer list. -/
theorem foldBuffers1_two (op : MIMPI_Op) (v a : List Nat)
    (l : List (List Nat)) :
    foldBuffers1 op (v :: a :: l) = zipOp op v (foldBuffers op a l) := by
  simp only [foldBuffers1, foldBuffers, List.foldl_cons]
  rw [foldl_zipOp_seed op l v a]

/-- Fold of a buffer list shaped like a tree node with two child subtrees. -/
theorem foldBuffers1_node (op : MIMPI_Op) (v a b : List Nat)
    (l1 l2 : List (List Nat)) :
    foldBuffers1 op (v :: ((a :: l1) ++ (b :: l2))) =
      zipOp op (zipOp op v (foldBuffers op a l1)) (foldBuffers op b l2) := by
  simp only [foldBuffers1, foldBuffers, List.cons_append, List.foldl_cons,
    List.foldl_append]
  rw [foldl_zipOp_seed op l1 v a, foldl_zipOp_seed op l2]

/-! ## Synchronous model of the collect phase (src/mimpi.c lines 617-670)

`_MIMPI_Collect` at tree position `i` (1-based heap position, §4.8 / the
`_MIMPI_Get_Neighbours` layout) seeds its working buffer with its own
contribution, then for each child position `2·i` and `2·i + 1` (present when
the position is at most `N`, i.e. `!(child > size)` in
`_MIMPI_Get_Neighbours`) receives that child's aggregated buffer over the
`GROUP_TAG` channel and folds it in with `_MIMPI_Reduce(data, child_data,
count, op)` — only the `count` payload bytes are folded, never the status
tail.  `collectTree` is that dataflow with the message passing replaced by
direct recursion on positions (the success path: every transfer delivers the
child's buffer intact — claim C4 is about the result on success). -/

def collectTree (N count : Nat) (op : MIMPI_Op) (send : Nat → List Nat)
    (i : Nat) : List Nat :=
  let d0 := send i
  let d1 := if h : 1 ≤ i ∧ 2 * i ≤ N then
    _MIMPI_Reduce d0 (collectTree N count op send (2 * i)) count op else d0
  if h : 1 ≤ i ∧ 2 * i + 1 ≤ N then
    _MIMPI_Reduce d1 (collectTree N count op send (2 * i + 1)) count op else d1
termination_by N + 1 - i
decreasing_by all_goals omega

/-- The heap positions in the subtree rooted at position `i`, in the order
the collect phase folds their contributions. -/
def subtreePositions (N : Nat) (i : Nat) : List Nat :=
  i :: ((if h : 1 ≤ i ∧ 2 * i ≤ N then subtreePositions N (2 * i) else []) ++
    (if h : 1 ≤ i ∧ 2 * i + 1 ≤ N then subtreePositions N (2 * i + 1) else []))
termination_by N + 1 - i
decreasing_by all_goals omega

theorem collectTree_length (N count : Nat) (op : MIMPI_Op)
    (send : Nat → List Nat) (hlen : ∀ j, (send j).length = count) (i : Nat) :
    (collectTree N count op send i).length = count := by
  rw [collectTree]
  by_cases h1 : 1 ≤ i ∧ 2 * i ≤ N
  · have ihl := collectTree_length N count op send hlen (2 * i)
    rw [dif_pos h1]
    have hred : (_MIMPI_Reduce (send i) (collectTree N count op send (2 * i))
        count op).length = count := by
      rw [_MIMPI_Reduce_eq_zipOp _ _ _ _ (hlen i) ihl, zipOp_length, hlen i,
        ihl, Nat.min_self]
    by_cases h2 : 1 ≤ i ∧ 2 * i + 1 ≤ N
    · have ihr := collectTree_length N count op send hlen (2 * i + 1)
      rw [dif_pos h2, _MIMPI_Reduce_eq_zipOp _ _ _ _ hred ihr, zipOp_length,
        hred, ihr, Nat.min_self]
    · rw [dif_neg h2]
      exact hred
  · have h2 : ¬(1 ≤ i ∧ 2 * i + 1 ≤ N) := by omega
    rw [dif_neg h1, dif_neg h2]
    exact hlen i
termination_by N + 1 - i
decreasing_by all_goals omega

/-- The collect phase at position `i` computes exactly the elementwise fold
of the contributions of the positions of its subtree, in traversal order. -/
theorem collectTree_eq_foldBuffers (N count : Nat) (op : MIMPI_Op)
    (send : Nat → List Nat) (hlen : ∀ j, (send j).length = count) (i : Nat) :
    collectTree N count op send i =
      foldBuffers1 op ((subtreePositions N i).map send) := by
  obtain ⟨t1, ht1⟩ : ∃ t, subtreePositions N (2 * i) = (2 * i) :: t := by
    rw [subtreePositions]
    exact ⟨_, rfl⟩
  obtain ⟨t2, ht2⟩ : ∃ t, subtreePositions N (2 * i + 1) = (2 * i + 1) :: t := by
    rw [subtreePositions]
    exact ⟨_, rfl⟩
  rw [collectTree, subtreePositions]
  by_cases h1 : 1 ≤ i ∧ 2 * i ≤ N
  · have hl1 := collectTree_length N count op send hlen (2 * i)
    have ih1 : collectTree N count op send (2 * i) =
        foldBuffers op (send (2 * i)) (t1.map send) := by
      rw [collectTree_eq_foldBuffers N count op send hlen (2 * i), ht1]
      rfl
    simp only [dif_pos h1]
    have hred : (_MIMPI_Reduce (send i) (collectTree N count op send (2 * i))
        count op).length = count := by
      rw [_MIMPI_Reduce_eq_zipOp _ _ _ _ (hlen i) hl1, zipOp_length, hlen i,
        hl1, Nat.min_self]
    by_cases h2 : 1 ≤ i ∧ 2 * i + 1 ≤ N
    · have hl2 := collectTree_length N count op send hlen (2 * i + 1)
      have ih2 : collectTree N count op send (2 * i + 1) =
          foldBuffers op (send (2 * i + 1)) (t2.map send) := by
        rw [collectTree_eq_foldBuffers N count op send hlen (2 * i + 1), ht2]
        rfl
      simp only [dif_pos h2]
      rw [_MIMPI_Reduce_eq_zipOp _ _ _ _ hred hl2,
        _MIMPI_Reduce_eq_zipOp _ _ _ _ (hlen i) hl1, ih1, ih2, ht1, ht2,
        show List.map send (i :: (((2 * i) :: t1) ++ ((2 * i + 1) :: t2))) =
          send i :: ((send (2 * i) :: t1.map send) ++
            (send (2 * i + 1) :: t2.map send)) from by simp,
        foldBuffers1_node]
    · simp only [dif_neg h2]
      rw [_MIMPI_Reduce_eq_zipOp _ _ _ _ (hlen i) hl1, ih1, ht1,
        show List.map send (i :: (((2 * i) :: t1) ++ [])) =
          send i :: send (2 * i) :: t1.map send from by simp,
        foldBuffers1_two]
  · have h2 : ¬(1 ≤ i ∧ 2 * i + 1 ≤ N) := by omega
    simp only [dif_neg h1, dif_neg h2]
    rfl
termination_by N + 1 - i
decreasing_by all_goals omega

theorem subtreePositions_self_mem (N i : Nat) : i ∈ subtreePositions N i := by
  rw [subtreePositions]
  exact List.mem_cons_self _ _

theorem subtreePositions_mem_ge (N i j : Nat)
    (hj : j ∈ subtreePositions N i) : i ≤ j := by
  rw [subtreePositions] at hj
  rcases List.mem_cons.mp hj with rfl | hj'
  · exact le_refl j
  · rcases List.mem_append.mp hj' with h | h
    · by_cases h1 : 1 ≤ i ∧ 2 * i ≤ N
      · rw [dif_pos h1] at h
        have := subtreePositions_mem_ge N (2 * i) j h
        omega
      · rw [dif_neg h1] at h
        exact absurd h (List.not_mem_nil j)
    · by_cases h2 : 1 ≤ i ∧ 2 * i + 1 ≤ N
      · rw [dif_pos h2] at h
        have := subtreePositions_mem_ge N (2 * i + 1) j h
        omega
      · rw [dif_neg h2] at h
        exact absurd h (List.not_mem_nil j)
termination_by N + 1 - i
decreasing_by all_goals omega

theorem subtreePositions_mem_le (N i j : Nat)
    (hj : j ∈ subtreePositions N i) : j = i ∨ j ≤ N := by
  rw [subtreePositions] at hj
  rcases List.mem_cons.mp hj with rfl | hj'
  · exact Or.inl rfl
  · rcases List.mem_append.mp hj' with h | h
    · by_cases h1 : 1 ≤ i ∧ 2 * i ≤ N
      · rw [dif_pos h1] at h
        rcases subtreePositions_mem_le N (2 * i) j h with rfl | hle
        · exact Or.inr h1.2
        · exact Or.inr hle
      · rw [dif_neg h1] at h
        exact absurd h (List.not_mem_nil j)
    · by_cases h2 : 1 ≤ i ∧ 2 * i + 1 ≤ N
      · rw [dif_pos h2] at h
        rcases subtreePositions_mem_le N (2 * i + 1) j h with rfl | hle
        · exact Or.inr h2.2
        · exact Or.inr hle
      · rw [dif_neg h2] at h
        exact absurd h (List.not_mem_nil j)
termination_by N + 1 - i
decreasing_by all_goals omega

theorem subtreePositions_mem_desc (N i j : Nat)
    (hj : j ∈ subtreePositions N i) : ∃ k, j / 2 ^ k = i := by
  rw [subtreePositions] at hj
  rcases List.mem_cons.mp hj with rfl | hj'
  · exact ⟨0, by simp⟩
  · rcases List.mem_append.mp hj' with h | h
    · by_cases h1 : 1 ≤ i ∧ 2 * i ≤ N
      · rw [dif_pos h1] at h
        obtain ⟨k, hk⟩ := subtreePositions_mem_desc N (2 * i) j h
        refine ⟨k + 1, ?_⟩
        rw [pow_succ, ← Nat.div_div_eq_div_mul, hk]
        omega
      · rw [dif_neg h1] at h
        exact absurd h (List.not_mem_nil j)
    · by_cases h2 : 1 ≤ i ∧ 2 * i + 1 ≤ N
      · rw [dif_pos h2] at h
        obtain ⟨k, hk⟩ := subtreePositions_mem_desc N (2 * i + 1) j h
        refine ⟨k + 1, ?_⟩
        rw [pow_succ, ← Nat.div_div_eq_div_mul, hk]
        omega
      · rw [dif_neg h2] at h
        exact absurd h (List.not_mem_nil j)
termination_by N + 1 - i
decreasing_by all_goals omega

theorem subtreePositions_nodup (N i : Nat) (hi : 1 ≤ i) :
    (subtreePositions N i).Nodup := by
  rw [subtreePositions]
  refine List.nodup_cons.mpr ⟨?_, ?_⟩
  · intro hmem
    rcases List.mem_append.mp hmem with h | h
    · by_cases h1 : 1 ≤ i ∧ 2 * i ≤ N
      · rw [dif_pos h1] at h
        have := subtreePositions_mem_ge N (2 * i) i h
        omega
      · rw [dif_neg h1] at h
        exact absurd h (List.not_mem_nil i)
    · by_cases h2 : 1 ≤ i ∧ 2 * i + 1 ≤ N
      · rw [dif_pos h2] at h
        have := subtreePositions_mem_ge N (2 * i + 1) i h
        omega
      · rw [dif_neg h2] at h
        exact absurd h (List.not_mem_nil i)
  · refine List.Nodup.append ?_ ?_ ?_
    · by_cases h1 : 1 ≤ i ∧ 2 * i ≤ N
      · rw [dif_pos h1]
        exact subtreePositions_nodup N (2 * i) (by omega)
      · rw [dif_neg h1]
        exact List.nodup_nil
    · by_cases h2 : 1 ≤ i ∧ 2 * i + 1 ≤ N
      · rw [dif_pos h2]
        exact subtreePositions_nodup N (2 * i + 1) (by omega)
      · rw [dif_neg h2]
        exact List.nodup_nil
    · intro a ha1 ha2
      by_cases h1 : 1 ≤ i ∧ 2 * i ≤ N
      · by_cases h2 : 1 ≤ i ∧ 2 * i + 1 ≤ N
        · rw [dif_pos h1] at ha1
          rw [dif_pos h2] at ha2
          obtain ⟨k1, hk1⟩ := subtreePositions_mem_desc N (2 * i) a ha1
          obtain ⟨k2, hk2⟩ := subtreePositions_mem_desc N (2 * i + 1) a ha2
          rcases Nat.lt_trichotomy k1 k2 with hlt | heq | hgt
          · have hsplit : a / 2 ^ k2 = a / 2 ^ k1 / 2 ^ (k2 - k1) := by
              rw [Nat.div_div_eq_div_mul, ← pow_add,
                Nat.add_sub_cancel' (le_of_lt hlt)]
            rw [hk1, hk2] at hsplit
            have hd : 2 ≤ 2 ^ (k2 - k1) := by
              calc (2 : Nat) = 2 ^ 1 := (pow_one 2).symm
                _ ≤ 2 ^ (k2 - k1) :=
                  Nat.pow_le_pow_right (by norm_num) (by omega)
            have hb : 2 * i / 2 ^ (k2 - k1) ≤ 2 * i / 2 :=
              Nat.div_le_div_left hd (by norm_num)
            rw [← hsplit] at hb
            omega
          · rw [heq, hk2] at hk1
            omega
          · have hsplit : a / 2 ^ k1 = a / 2 ^ k2 / 2 ^ (k1 - k2) := by
              rw [Nat.div_div_eq_div_mul, ← pow_add,
                Nat.add_sub_cancel' (le_of_lt hgt)]
            rw [hk2, hk1] at hsplit
            have hd : 2 ≤ 2 ^ (k1 - k2) := by
              calc (2 : Nat) = 2 ^ 1 := (pow_one 2).symm
                _ ≤ 2 ^ (k1 - k2) :=
                  Nat.pow_le_pow_right (by norm_num) (by omega)
            have hb : (2 * i + 1) / 2 ^ (k1 - k2) ≤ (2 * i + 1) / 2 :=
              Nat.div_le_div_left hd (by norm_num)
            rw [← hsplit] at hb
            omega
        · rw [dif_neg h2] at ha2
          exact absurd ha2 (List.not_mem_nil a)
      · rw [dif_neg h1] at ha1
        exact absurd ha1 (List.not_mem_nil a)
termination_by N + 1 - i
decreasing_by all_goals omega

theorem subtreePositions_child_mem (N i : Nat) (hi : 1 ≤ i) (j : Nat)
    (hj : j ∈ subtreePositions N i) (c : Nat)
    (hc : c = 2 * j ∨ c = 2 * j + 1) (hcN : c ≤ N) :
    c ∈ subtreePositions N i := by
  have hj1 : 1 ≤ j := le_trans hi (subtreePositions_mem_ge N i j hj)
  rw [subtreePositions] at hj ⊢
  rcases List.mem_cons.mp hj with heq | hj'
  · subst heq
    refine List.mem_cons.mpr (Or.inr ?_)
    rcases hc with rfl | rfl
    · have h1 : 1 ≤ j ∧ 2 * j ≤ N := ⟨hj1, hcN⟩
      refine List.mem_append.mpr (Or.inl ?_)
      rw [dif_pos h1]
      exact subtreePositions_self_mem N (2 * j)
    · have h2 : 1 ≤ j ∧ 2 * j + 1 ≤ N := ⟨hj1, hcN⟩
      refine List.mem_append.mpr (Or.inr ?_)
      rw [dif_pos h2]
      exact subtreePositions_self_mem N (2 * j + 1)
  · rcases List.mem_append.mp hj' with h | h
    · by_cases h1 : 1 ≤ i ∧ 2 * i ≤ N
      · rw [dif_pos h1] at h
        have hrec := subtreePositions_child_mem N (2 * i) (by omega) j h c hc hcN
        refine List.mem_cons.mpr (Or.inr (List.mem_append.mpr (Or.inl ?_)))
        rw [dif_pos h1]
        exact hrec
      · rw [dif_neg h1] at h
        exact absurd h (List.not_mem_nil j)
    · by_cases h2 : 1 ≤ i ∧ 2 * i + 1 ≤ N
      · rw [dif_pos h2] at h
        have hrec := subtreePositions_child_mem N (2 * i + 1) (by omega) j h c hc hcN
        refine List.mem_cons.mpr (Or.inr (List.mem_append.mpr (Or.inr ?_)))
        rw [dif_pos h2]
        exact hrec
      · rw [dif_neg h2] at h
        exact absurd h (List.not_mem_nil j)
termination_by N + 1 - i
decreasing_by all_goals omega

theorem subtreePositions_complete (N j : Nat) (h1 : 1 ≤ j) (hN : j ≤ N) :
    j ∈ subtreePositions N 1 := by
  by_cases hj : j = 1
  · subst hj
    exact subtreePositions_self_mem N 1
  · have hj2 : 2 ≤ j := by omega
    have hpar : j / 2 ∈ subtreePositions N 1 :=
      subtreePositions_complete N (j / 2) (by omega) (by omega)
    exact subtreePositions_child_mem N 1 (le_refl 1) (j / 2) hpar j
      (by omega) hN
termination_by j
decreasing_by omega

/-- The subtree of position 1 visits exactly the positions `1, …, N`. -/
theorem subtreePositions_root_perm (N : Nat) (hN : 1 ≤ N) :
    (subtreePositions N 1).Perm (List.range' 1 N) := by
  refine (List.perm_ext_iff_of_nodup
    (subtreePositions_nodup N 1 (le_refl 1)) (List.nodup_range' 1 N)).mpr ?_
  intro a
  rw [List.mem_range'_1]
  constructor
  · intro ha
    have hge := subtreePositions_mem_ge N 1 a ha
    rcases subtreePositions_mem_le N 1 a ha with rfl | h
    · omega
    · omega
  · rintro ⟨ha1, ha2⟩
    exact subtreePositions_complete N a ha1 (by omega)

theorem foldl_zipOp_perm (op : MIMPI_Op) {l1 l2 : List (List Nat)}
    (p : l1.Perm l2) (b : List Nat) :
    l1.foldl (fun acc x => zipOp op acc x) b =
      l2.foldl (fun acc x => zipOp op acc x) b :=
  p.foldl_eq' (fun x _ y _ z => by
    show zipOp op (zipOp op z x) y = zipOp op (zipOp op z y) x
    rw [zipOp_assoc op z x y, zipOp_comm op x y, ← zipOp_assoc op z y x]) b

/-- The elementwise fold of buffers is invariant under permutation. -/
theorem foldBuffers1_perm (op : MIMPI_Op) :
    ∀ {l1 l2 : List (List Nat)}, l1.Perm l2 →
      foldBuffers1 op l1 = foldBuffers1 op l2 := by
  intro l1 l2 h
  cases l1 with
  | nil =>
    rw [← h.nil_eq]
  | cons a t1 =>
    cases l2 with
    | nil =>
      exact absurd h (by simp)
    | cons b t2 =>
      by_cases hab : a = b
      · subst hab
        simp only [foldBuffers1, foldBuffers]
        exact foldl_zipOp_perm op h.cons_inv a
      · have hb : b ∈ t1 := by
          have hmem : b ∈ a :: t1 := h.mem_iff.mpr (List.mem_cons_self b t2)
          rcases List.mem_cons.mp hmem with heq | hmem'
          · exact absurd heq.symm hab
          · exact hmem'
        obtain ⟨u, v, huv⟩ := List.append_of_mem hb
        subst huv
        have hp1 : (u ++ b :: v).Perm (b :: (u ++ v)) := List.perm_middle
        have hp2 : (a :: (u ++ v)).Perm t2 := by
          have hchain : (b :: a :: (u ++ v)).Perm (b :: t2) :=
            ((List.Perm.swap a b (u ++ v)).trans
              ((hp1.symm).cons a)).trans h
          exact hchain.cons_inv
        simp only [foldBuffers1, foldBuffers]
        calc List.foldl (fun acc x => zipOp op acc x) a (u ++ b :: v)
            = List.foldl (fun acc x => zipOp op acc x) a (b :: (u ++ v)) :=
              foldl_zipOp_perm op hp1 a
          _ = List.foldl (fun acc x => zipOp op acc x) (zipOp op a b)
              (u ++ v) := by simp only [List.foldl_cons]
          _ = List.foldl (fun acc x => zipOp op acc x) (zipOp op b a)
              (u ++ v) := by rw [zipOp_comm]
          _ = List.foldl (fun acc x => zipOp op acc x) b (a :: (u ++ v)) := by
              simp only [List.foldl_cons]
          _ = List.foldl (fun acc x => zipOp op acc x) b t2 :=
              foldl_zipOp_perm op hp2 b

/-- Rotating the ranks `0, …, N-1` by a constant is a permutation. -/
theorem rotation_map_perm (N c : Nat) :
    (((List.range N).map fun q => (q + c) % N)).Perm (List.range N) := by
  rcases Nat.eq_zero_or_pos N with rfl | hN
  · simp
  · have hnodup : (((List.range N).map fun q => (q + c) % N)).Nodup := by
      refine List.Nodup.map_on ?_ (List.nodup_range N)
      intro x hx y hy hxy
      rw [List.mem_range] at hx hy
      have hmod : x % N = y % N := Nat.ModEq.add_right_cancel' c hxy
      rwa [Nat.mod_eq_of_lt hx, Nat.mod_eq_of_lt hy] at hmod
    refine List.perm_of_nodup_nodup_toFinset_eq hnodup (List.nodup_range N) ?_
    refine Finset.eq_of_subset_of_card_le ?_ ?_
    · intro x hx
      simp only [List.mem_toFinset, List.mem_map, List.mem_range] at hx ⊢
      obtain ⟨q, _, rfl⟩ := hx
      exact Nat.mod_lt _ hN
    · rw [List.toFinset_card_of_nodup (List.nodup_range N),
        List.toFinset_card_of_nodup hnodup]
      simp

/-- Re-indexing the per-position contributions by the position-to-rank map
turns the positions `1, …, N` into the rotated ranks. -/
theorem range'_map_rotate (N root : Nat) (sendOf : Nat → List Nat) :
    (List.range' 1 N).map (fun p => sendOf ((p - 1 + root) % N)) =
      ((List.range N).map fun q => (q + root) % N).map sendOf := by
  rw [List.range'_eq_map_range, List.map_map, List.map_map]
  congr 1
  funext q
  simp only [Function.comp_apply]
  have h : 1 + q - 1 + root = q + root := by omega
  rw [h]

/-- The synchronous success-path model of `MIMPI_Reduce` (src/mimpi.c lines
857-874): all `N` ranks call with the same `count`, `op` and `root`, all
transfers succeed.  Rank `r` takes tree position `((N + r − root) mod N) + 1`
(`_MIMPI_Get_Neighbours`), so the contribution at position `p` comes from
rank `((p − 1 + root) mod N)` and the root sits at position 1.  The root
passes `recv_data` to `_MIMPI_Collect`, which copies the aggregated buffer
into it; non-root ranks pass `NULL` and `_MIMPI_Distribute` is called with
`recv_data = NULL, count = 0`, so its final `memmove(recv_data, data, count)`
moves nothing — the non-root `recv` buffer is untouched. -/
def MIMPI_Reduce_result (N root count : Nat) (op : MIMPI_Op)
    (sendOf recvOf : Nat → List Nat) (r : Nat) : List Nat :=
  if r = root then
    collectTree N count op (fun p => sendOf ((p - 1 + root) % N)) 1
  else recvOf r

/-- The process-wide state used by the C10 counterexample: peer 1's inbox
holds a REQUEST `{size = 3, tag = 5}` followed by a `GROUP_TAG` message, and
the own outbox for peer 1 holds one entry. -/
def c10World : World :=
  { wires := fun _ => [],
    outboxes := fun j => if j = 1 then [⟨3, 5⟩] else [],
    inboxes := fun j => if j = 1 then
      [⟨INBOX_REQUEST, 5, 3, []⟩, ⟨INBOX_MESSAGE, -1, 4, [1, 2, 3, 4]⟩]
      else [] }

end MIMPI

open MIMPI MIMPI.MIMPI_Retcode MIMPI.Inbox_Message_Type

/-- **C1.** For every sequence of sends from one rank to another, a sequence
of `Recv` calls at the destination whose `(tag, count)` pairs match the sends
in order returns the payloads in exactly the order they were sent (the inbox
holds the arrivals in wire order, `_Inbox_Save` appending at the back);
moreover, a successful `Inbox_Retrieve` always consumes the *first* `MESSAGE`
entry matching the requested `(tag, size)` — it never consumes a later
matching `MESSAGE` before an earlier one that also matches. -/
theorem C1_fifo_order (sends : List (Int × List Nat)) (recvs : List (Int × Nat))
    (hlen : sends.length = recvs.length)
    (hmatch : ∀ p ∈ sends.zip recvs,
      _Inbox_Match (mkMessage p.1) p.2.1 p.2.2 = true) :
    Retrieve_seq false recvs (sends.map mkMessage) [] =
      some (sends.map Prod.snd, []) ∧
    ∀ (inbox : List Inbox_Message) (detection : Bool)
      (outbox : List Outbox_Message) (tag : Int) (size : Nat) (d : List Nat),
      (Inbox_Retrieve detection outbox tag size inbox).outcome = .success d →
      ∃ l₁ m l₂, inbox = l₁ ++ m :: l₂ ∧
        m.type = INBOX_MESSAGE ∧ _Inbox_Match m tag size = true ∧
        d = m.data.take size ∧
        ∀ e ∈ l₁, ¬(e.type = INBOX_MESSAGE ∧ _Inbox_Match e tag size = true) :=
  ⟨Retrieve_seq_in_order sends recvs [] hlen hmatch,
    Inbox_Retrieve_success_first_match⟩

/-- Witness for C1: two sends `(tag 7, [10, 20])` and `(tag 5, [30])`,
received by `(tag 7, count 2)` then `(wildcard, count 1)`, are returned in
send order. -/
theorem C1_fifo_order_witness :
    Retrieve_seq false [(7, 2), (0, 1)]
      ([((7 : Int), [10, 20]), ((5 : Int), [30])].map mkMessage) [] =
      some ([[10, 20], [30]], []) :=
  (C1_fifo_order [(7, [10, 20]), (5, [30])] [(7, 2), (0, 1)]
    (by decide) (by decide)).1

/-- **C2.** The claim says an Outbox entry matches a consumed REQUEST iff the
sizes are equal and the tags are equal or one is the wildcard, and that
`Inbox_Retrieve` returns `DEADLOCK_DETECTED` iff no Outbox entry matches the
REQUEST.  The code violates this: consuming the REQUEST `{size := 4, tag := 7}`
while the own outbox for that peer holds exactly `{tag := 7, size := 4}` — an
entry that matches the REQUEST under the claimed rule (first conjunct) —
returns `DEADLOCK_DETECTED` and leaves the entry in the outbox, because
`Inbox_Retrieve` passes the request's size and tag to `Outbox_Pop`'s `tag`
and `size` parameters respectively (swapped arguments, src/mimpi.c line 397
against the prototype at line 231). -/
theorem C2_request_outbox_match_bug :
    _MIMPI_Match 4 7 4 7 = true ∧
    Inbox_Retrieve true [⟨7, 4⟩] 9 2 [⟨INBOX_REQUEST, 7, 4, []⟩] =
      ⟨.error MIMPI_ERROR_DEADLOCK_DETECTED, [], [⟨7, 4⟩], [0]⟩ := by
  decide

/-- **C9 (counterexample).** The claim "once the consumer's Retrieve walk has
passed over a node, no later Retrieve call ever revisits that node" is false:
the first retrieve (tag 1) inspects the tag-2 node at position 0, passes over
it (it stays in the inbox), and the second retrieve (tag 2) starts again from
the front, inspecting — and consuming — that very node. -/
theorem C9_counterexample :
    Inbox_Retrieve false [] 1 1
        [⟨INBOX_MESSAGE, 2, 1, [7]⟩, ⟨INBOX_MESSAGE, 1, 1, [9]⟩] =
      ⟨.success [9], [⟨INBOX_MESSAGE, 2, 1, [7]⟩], [], [0, 1]⟩ ∧
    Inbox_Retrieve false [] 2 1 [⟨INBOX_MESSAGE, 2, 1, [7]⟩] =
      ⟨.success [7], [], [], [0]⟩ := by
  decide

/-- **C9 (amended).** Within a single `Inbox_Retrieve` call, the consumer walk
moves strictly forward and never revisits a node: the positions it inspects
are exactly `0, 1, 2, …` in increasing order.  Across calls, however, each
retrieve restarts from the inbox front and re-inspects the nodes left in
place by earlier calls (that is how a later retrieve with a different
`(tag, size)` finds a previously passed-over message); ordering is preserved
because non-consumed nodes keep their relative positions. -/
theorem C9_single_call_forward_walk :
    ∀ (inbox : List Inbox_Message) (detection : Bool)
      (outbox : List Outbox_Message) (tag : Int) (size : Nat),
      (Inbox_Retrieve detection outbox tag size inbox).visited =
        List.range (Inbox_Retrieve detection outbox tag size inbox).visited.length :=
  Inbox_Retrieve_visited_range

/-- **C3.** For every two `(size, tag)` pairs, the matching predicate used for
outbox-to-request matching (`_MIMPI_Match`) holds iff the sizes are equal and
either tag equals the wildcard sentinel `0` or the two tags are equal, and the
predicate used for inbox-to-user matching (`_Inbox_Match`) holds iff the sizes
are equal and either tag equals `MIMPI_ANY_TAG` or the two tags are equal. -/
theorem C3_matching_predicate :
    (∀ (s₁ : Nat) (t₁ : Int) (s₂ : Nat) (t₂ : Int),
      _MIMPI_Match s₁ t₁ s₂ t₂ = true ↔
        s₁ = s₂ ∧ (t₁ = 0 ∨ t₂ = 0 ∨ t₁ = t₂)) ∧
    (∀ (ty : Inbox_Message_Type) (mtag : Int) (msize : Nat) (mdata : List Nat)
       (tag : Int) (size : Nat),
      _Inbox_Match ⟨ty, mtag, msize, mdata⟩ tag size = true ↔
        msize = size ∧ (mtag = MIMPI_ANY_TAG ∨ tag = MIMPI_ANY_TAG ∨ mtag = tag)) :=
  ⟨_MIMPI_Match_iff, fun ty mtag msize mdata tag size =>
    _Inbox_Match_iff ⟨ty, mtag, msize, mdata⟩ tag size⟩

/-- **C5.** The status-folding function returns, for every pair of return
codes, the one earlier in the precedence order `NO_SUCH_RANK >
ATTEMPTED_SELF_OP > REMOTE_FINISHED > DEADLOCK_DETECTED > SUCCESS` (first
match wins); it is commutative and associative (so the pooled code is the
same at every participant once both collective phases complete), and a fold
of statuses is `SUCCESS` only when every folded status is `SUCCESS` — a
collective never reports `SUCCESS` when some participant observed a
non-success. -/
theorem C5_retcode_precedence :
    (∀ a b, _MIMPI_Update_Retcode a b =
      if retcodePrecedence a ≤ retcodePrecedence b then a else b) ∧
    (∀ a b, _MIMPI_Update_Retcode a b = _MIMPI_Update_Retcode b a) ∧
    (∀ a b c, _MIMPI_Update_Retcode (_MIMPI_Update_Retcode a b) c =
      _MIMPI_Update_Retcode a (_MIMPI_Update_Retcode b c)) ∧
    (∀ l : List MIMPI_Retcode,
      l.foldl _MIMPI_Update_Retcode MIMPI_SUCCESS = MIMPI_SUCCESS ↔
        ∀ x ∈ l, x = MIMPI_SUCCESS) := by
  refine ⟨?_, ?_, ?_, ?_⟩
  · intro a b; cases a <;> cases b <;> rfl
  · intro a b; cases a <;> cases b <;> rfl
  · intro a b c; cases a <;> cases b <;> cases c <;> rfl
  · intro l
    rw [foldl_Update_Retcode_eq_success]
    simp

/-- **C6.** For every rank `r`, root `root` and world size `N` (with
`0 ≤ r < N` and `0 ≤ root < N`), the collective-tree neighbour computation
yields: logical position `i = ((N + r − root) mod N) + 1`; parent rank
`((⌊i/2⌋ − 1 + root) mod N)`, except that position 1 has no parent (`-1`);
and children at logical positions `2i` and `2i+1`, each `-1` when the
position exceeds `N` and otherwise mapped to rank
`((child − 1 + root) mod N)`. -/
theorem C6_collective_tree_neighbours (r root N : Int)
    (hr0 : 0 ≤ r) (hrN : r < N) (hroot0 : 0 ≤ root) (hrootN : root < N) :
    (_MIMPI_Get_Neighbours r root N).1 =
      (if (N + r - root) % N + 1 = 1 then -1
       else (((N + r - root) % N + 1) / 2 - 1 + root) % N) ∧
    (_MIMPI_Get_Neighbours r root N).2 =
      [if 2 * ((N + r - root) % N + 1) > N then -1
       else (2 * ((N + r - root) % N + 1) - 1 + root) % N,
       if 2 * ((N + r - root) % N + 1) + 1 > N then -1
       else (2 * ((N + r - root) % N + 1) + 1 - 1 + root) % N] := by
  have hc0 : (if ((N + r - root) % N + 1) * 2 + ((0 : Nat) : Int) > N then (-1 : Int)
      else (((N + r - root) % N + 1) * 2 + ((0 : Nat) : Int) + root - 1) % N) =
      (if 2 * ((N + r - root) % N + 1) > N then -1
       else (2 * ((N + r - root) % N + 1) - 1 + root) % N) := by
    have e : ((N + r - root) % N + 1) * 2 + ((0 : Nat) : Int) =
        2 * ((N + r - root) % N + 1) := by push_cast; ring
    rw [e]
    by_cases h : 2 * ((N + r - root) % N + 1) > N
    · simp [h]
    · simp only [h, if_false]
      congr 1
      ring
  have hc1 : (if ((N + r - root) % N + 1) * 2 + ((1 : Nat) : Int) > N then (-1 : Int)
      else (((N + r - root) % N + 1) * 2 + ((1 : Nat) : Int) + root - 1) % N) =
      (if 2 * ((N + r - root) % N + 1) + 1 > N then -1
       else (2 * ((N + r - root) % N + 1) + 1 - 1 + root) % N) := by
    have e : ((N + r - root) % N + 1) * 2 + ((1 : Nat) : Int) =
        2 * ((N + r - root) % N + 1) + 1 := by push_cast; ring
    rw [e]
    by_cases h : 2 * ((N + r - root) % N + 1) + 1 > N
    · simp [h]
    · simp only [h, if_false]
      congr 1
      ring
  constructor
  · show (if (N + r - root) % N + 1 = 1 then (-1 : Int)
        else (((N + r - root) % N + 1) / 2 + root - 1) % N) = _
    by_cases h : (N + r - root) % N + 1 = 1
    · simp [h]
    · simp only [h, if_false]
      congr 1
      ring
  · show [(if ((N + r - root) % N + 1) * 2 + ((0 : Nat) : Int) > N then (-1 : Int)
        else (((N + r - root) % N + 1) * 2 + ((0 : Nat) : Int) + root - 1) % N),
       (if ((N + r - root) % N + 1) * 2 + ((1 : Nat) : Int) > N then (-1 : Int)
        else (((N + r - root) % N + 1) * 2 + ((1 : Nat) : Int) + root - 1) % N)] = _
    rw [hc0, hc1]

/-- Witness for C6: with `r = 2`, `root = 2`, `N = 4` the process is the tree
root (position 1, no parent) and its children are ranks 3 and 0. -/
theorem C6_collective_tree_neighbours_witness :
    (_MIMPI_Get_Neighbours 2 2 4).1 = -1 ∧
    (_MIMPI_Get_Neighbours 2 2 4).2 = [3, 0] := by
  have h := C6_collective_tree_neighbours 2 2 4
    (by decide) (by decide) (by decide) (by decide)
  exact ⟨by rw [h.1]; decide, by rw [h.2]; decide⟩

/-- **C7.** Framing then parsing is the identity on payloads: for every
payload of size exactly `P − sizeof(Header)` (= 496), `P − sizeof(Header) + 1`
(= 497), `1` and `0` bytes and every representable tag, sending it (header
plus the first `min (size, 496)` bytes in the 512-byte packet, remainder as a
raw tail) and parsing the resulting stream reconstructs a byte-identical
payload with the original size and tag, consuming exactly the frame. -/
theorem C7_framing_roundtrip (data : List Nat) (tag : Int) (rest : List Nat)
    (htag1 : -2147483648 ≤ tag) (htag2 : tag < 2147483648)
    (hlen : data.length = MIMPI_PREFIX_SIZE ∨
      data.length = MIMPI_PREFIX_SIZE + 1 ∨
      data.length = 1 ∨ data.length = 0) :
    _Receiver_Receive (sendFrameBytes data tag ++ rest) =
      some ((tag, data.length, data), rest) :=
  Receiver_Receive_sendFrameBytes data tag rest htag1 htag2 (by
    rcases hlen with h | h | h | h <;> rw [h] <;> norm_num [MIMPI_PREFIX_SIZE])

/-- Witness for C7: a 1-byte payload `[42]` with tag 7, followed by a stray
byte `[9]` of the next frame, round-trips exactly. -/
theorem C7_framing_roundtrip_witness :
    _Receiver_Receive (sendFrameBytes [42] 7 ++ [9]) =
      some ((7, 1, [42]), [9]) :=
  C7_framing_roundtrip [42] 7 [9] (by decide) (by decide) (by decide)

/-- **C8.** Sends to the caller's own rank and receives from the caller's own
rank return `ATTEMPTED_SELF_OP`; sends/receives outside `[0, world size)`
return `NO_SUCH_RANK`; in all these cases the whole process state — every
channel, every outbox, every inbox — is left untouched. -/
theorem C8_rank_guards (detection : Bool) (rank N : Int) (data : List Nat)
    (tag : Int) (count : Nat) (destination source : Int) (w : World)
    (hr0 : 0 ≤ rank) (hrN : rank < N) :
    MIMPI_Send detection rank N data rank tag w =
      (MIMPI_ERROR_ATTEMPTED_SELF_OP, w) ∧
    (destination < 0 ∨ N ≤ destination →
      MIMPI_Send detection rank N data destination tag w =
        (MIMPI_ERROR_NO_SUCH_RANK, w)) ∧
    MIMPI_Recv detection rank N count rank tag w =
      (.error MIMPI_ERROR_ATTEMPTED_SELF_OP, w) ∧
    (source < 0 ∨ N ≤ source →
      MIMPI_Recv detection rank N count source tag w =
        (.error MIMPI_ERROR_NO_SUCH_RANK, w)) := by
  refine ⟨?_, ?_, ?_, ?_⟩
  · simp [MIMPI_Send, _MIMPI_Send]
  · intro hout
    have hne : destination ≠ rank := by rcases hout with h | h <;> omega
    simp [MIMPI_Send, _MIMPI_Send, hne, hout]
  · simp [MIMPI_Recv]
  · intro hout
    have hne : source ≠ rank := by rcases hout with h | h <;> omega
    simp [MIMPI_Recv, hne, hout]

/-- Witness for C8: at rank 0 of a 2-process world, a self send/recv and a
send to rank 5 / recv from rank -1 fail with untouched state. -/
theorem C8_rank_guards_witness :
    MIMPI_Send true 0 2 [1, 2] 0 7 emptyWorld =
      (MIMPI_ERROR_ATTEMPTED_SELF_OP, emptyWorld) ∧
    MIMPI_Send true 0 2 [1, 2] 5 7 emptyWorld =
      (MIMPI_ERROR_NO_SUCH_RANK, emptyWorld) ∧
    MIMPI_Recv true 0 2 3 0 7 emptyWorld =
      (.error MIMPI_ERROR_ATTEMPTED_SELF_OP, emptyWorld) ∧
    MIMPI_Recv true 0 2 3 (-1) 7 emptyWorld =
      (.error MIMPI_ERROR_NO_SUCH_RANK, emptyWorld) := by
  obtain ⟨a, b, c, d⟩ := C8_rank_guards true 0 2 [1, 2] 7 3 5 (-1) emptyWorld
    (by decide) (by decide)
  exact ⟨a, b (by decide), c, d (by decide)⟩

/-- **C10 (counterexample).** The claim "collectives leave every Outbox
unchanged" is false: the collectives' internal receive path `_MIMPI_Recv`
(here with the collectives' `GROUP_TAG`, deadlock detection enabled) consumes
a REQUEST entry sitting in the peer's inbox and pops the own Outbox for that
peer — the outbox for peer 1 goes from one entry to empty.  (The popped entry
is `{tag := 3, size := 5}` against the REQUEST `{size := 3, tag := 5}`,
matching under the swapped-argument `Outbox_Pop` call of src/mimpi.c line
397.) -/
theorem C10_counterexample :
    c10World.outboxes 1 = [⟨3, 5⟩] ∧
    (_MIMPI_Recv true 4 1 MIMPI_GROUP_TAG c10World).1 = .success [1, 2, 3, 4] ∧
    (_MIMPI_Recv true 4 1 MIMPI_GROUP_TAG c10World).2.outboxes 1 = [] := by
  refine ⟨rfl, ?_, ?_⟩ <;> rfl

/-- **C10 (amended).** The collectives' internal tree traffic uses
`_MIMPI_Send`, which never touches any Outbox or Inbox, and every frame it
emits carries the supplied header tag — `GROUP_TAG`, which is not
`REQUEST_TAG` — so collectives never send REQUEST frames; and the internal
receive path `_MIMPI_Recv` never writes to any channel, so it never issues a
deadlock REQUEST: the deadlock detector's requests originate only from
user-level `MIMPI_Recv`.  (However — per the counterexample — an internal
receive can still consume an incoming REQUEST entry and modify the Outbox for
that peer, so "Outboxes are unchanged by collectives" does not hold.) -/
theorem C10_internal_paths_no_requests :
    (∀ (rank N : Int) (data : List Nat) (destination : Int) (w : World),
      (_MIMPI_Send rank N data destination MIMPI_GROUP_TAG w).2.outboxes =
        w.outboxes ∧
      (_MIMPI_Send rank N data destination MIMPI_GROUP_TAG w).2.inboxes =
        w.inboxes) ∧
    (∀ (data : List Nat) (tag : Int), -2147483648 ≤ tag → tag < 2147483648 →
      bytes4ToInt (((sendFrameBytes data tag).drop 8).take 4) = tag) ∧
    MIMPI_GROUP_TAG ≠ MIMPI_REQUEST_TAG ∧
    (∀ (detection : Bool) (count : Nat) (source tag : Int) (w : World),
      (_MIMPI_Recv detection count source tag w).2.wires = w.wires) := by
  refine ⟨?_, ?_, by decide, ?_⟩
  · intro rank N data destination w
    unfold _MIMPI_Send
    split_ifs <;> exact ⟨rfl, rfl⟩
  · intro data tag h1 h2
    have hassoc : sendFrameBytes data tag = natToBytesLE 8 data.length ++
        (intToBytes4 tag ++ ([0, 0, 0, 0] ++
          ((data.take MIMPI_PREFIX_SIZE ++
            List.replicate (MIMPI_PREFIX_SIZE -
              min data.length MIMPI_PREFIX_SIZE) 0) ++
            data.drop MIMPI_PREFIX_SIZE))) := by
      simp [sendFrameBytes, headerBytes, List.append_assoc]
    rw [hassoc, List.drop_left' (length_natToBytesLE 8 _),
      List.take_left' (length_intToBytes4 tag),
      bytes4ToInt_intToBytes4 tag h1 h2]
  · intro detection count source tag w
    rfl

/-- Witness for C10 (amended): the header tag of a framed `GROUP_TAG` message
decodes back to `GROUP_TAG` (hypotheses of the second conjunct discharged at
tag `-1`). -/
theorem C10_internal_paths_no_requests_witness :
    bytes4ToInt (((sendFrameBytes [5] (-1)).drop 8).take 4) = -1 :=
  C10_internal_paths_no_requests.2.1 [5] (-1) (by decide) (by decide)

/-- **C4.** For every `Reduce(send, recv, count, op, root)` executed by all
`N` ranks with the same `count`, `op` and `root` (success path), the root's
`recv` buffer equals the elementwise fold of all ranks' send buffers under
`op`, with the operators acting on unsigned bytes — `MAX` and `MIN`
elementwise, `SUM` and `PROD` modulo 256 (`opByte`), no promotion to wider
types; every non-root rank's `recv` buffer is left untouched. -/
theorem C4_reduce_fold (N root count : Nat) (op : MIMPI.MIMPI_Op)
    (sendOf recvOf : Nat → List Nat) (hN : 1 ≤ N) (hroot : root < N)
    (hlen : ∀ j, (sendOf j).length = count) :
    MIMPI_Reduce_result N root count op sendOf recvOf root =
      foldBuffers1 op ((List.range N).map sendOf) ∧
    ∀ r, r ≠ root →
      MIMPI_Reduce_result N root count op sendOf recvOf r = recvOf r := by
  constructor
  · rw [MIMPI_Reduce_result, if_pos rfl,
      collectTree_eq_foldBuffers N count op _ (fun j => hlen _) 1]
    have step1 := foldBuffers1_perm op
      ((subtreePositions_root_perm N hN).map
        (fun p => sendOf ((p - 1 + root) % N)))
    have step2 := range'_map_rotate N root sendOf
    have step3 := foldBuffers1_perm op ((rotation_map_perm N root).map sendOf)
    rw [step1, step2]
    exact step3
  · intro r hr
    rw [MIMPI_Reduce_result, if_neg hr]

/-- Witness for C4: `N = 4`, `root = 2`, `count = 2`, `op = SUM`; the root's
result is the bytewise sum `[0+1+2+3, 7·4] = [6, 28]` and a non-root rank's
`recv` stays `[9, 9]`. -/
theorem C4_reduce_fold_witness :
    MIMPI_Reduce_result 4 2 2 MIMPI.MIMPI_Op.MIMPI_SUM
      (fun j => [j % 256, 7]) (fun _ => [9, 9]) 2 = [6, 28] ∧
    MIMPI_Reduce_result 4 2 2 MIMPI.MIMPI_Op.MIMPI_SUM
      (fun j => [j % 256, 7]) (fun _ => [9, 9]) 1 = [9, 9] := by
  have h := C4_reduce_fold 4 2 2 MIMPI.MIMPI_Op.MIMPI_SUM
    (fun j => [j % 256, 7]) (fun _ => [9, 9]) (by decide) (by decide)
    (fun j => rfl)
  refine ⟨?_, ?_⟩
  · rw [h.1]
    decide
  · rw [h.2 1 (by decide)]
